import Mathlib

/-!
Shallow embedding of the algorithmic core of `roboptim-capsule`:
capsule fitting from a 3D point cloud, point/segment geometry, the
capsule/solver-parameter codec, and the differentiable `Volume` and
`DistanceCapsulePoint` functions.

Scalars are modelled as exact rationals (the C++ code uses `double`);
Euclidean distances, which involve a square root, are the real square
roots of exactly computed rational squared distances.  The repository
sources under `src/` contain only the declarations (`util.hh`,
`volume.hh`, `distance-capsule-point.hh`); the function bodies
(`util.cc`, `volume.cc`, `distance-capsule-point.cc`) are absent, so
each body below is modelled from the specification, as flagged in the
individual doc comments.
-/

namespace RoboptimCapsule

/-- A 3D point (the C++ `point_t`, an Eigen 3-vector of doubles),
with exact rational coordinates. -/
structure Point where
  x : ℚ
  y : ℚ
  z : ℚ
deriving DecidableEq, Repr

/-- Componentwise difference of two points. -/
def Point.sub (p q : Point) : Point :=
  ⟨p.x - q.x, p.y - q.y, p.z - q.z⟩

/-- Componentwise sum of two points. -/
def Point.add (p q : Point) : Point :=
  ⟨p.x + q.x, p.y + q.y, p.z + q.z⟩

/-- Scalar multiple of a point. -/
def Point.smul (t : ℚ) (p : Point) : Point :=
  ⟨t * p.x, t * p.y, t * p.z⟩

/-- Euclidean dot product of two 3-vectors. -/
def dot (p q : Point) : ℚ :=
  p.x * q.x + p.y * q.y + p.z * q.z

/-- Squared Euclidean norm of a 3-vector. -/
def normSq (p : Point) : ℚ :=
  dot p p

/-- Euclidean norm of a 3-vector, as a real number. -/
noncomputable def Point.norm (p : Point) : ℝ :=
  Real.sqrt (normSq p)

/-- Clamp a scalar to the interval [0,1]. -/
def clamp01 (t : ℚ) : ℚ :=
  max 0 (min 1 t)

/-- Modelled from the spec: the body of `distancePointToSegment`
(`util.cc` is missing from `src/`; only the declaration in `util.hh`
is present).  If `a == b` the segment degenerates to a point and the
result is `|p - a|`; otherwise `t = dot(p-a, b-a) / |b-a|^2` is
clamped to `[0,1]` and the result is the distance from `p` to
`a + t*(b-a)`.  This is the exact squared distance. -/
def distSqPointToSegment (p a b : Point) : ℚ :=
  if a = b then normSq (p.sub a)
  else
    normSq (p.sub (a.add (Point.smul
      (clamp01 (dot (p.sub a) (b.sub a) / normSq (b.sub a))) (b.sub a))))

/-- The distance from `p` to segment `[a,b]`: the real square root of
the exact squared distance `distSqPointToSegment`. -/
noncomputable def distancePointToSegment (p a b : Point) : ℝ :=
  Real.sqrt (distSqPointToSegment p a b)

/-- Modelled from the spec: the body of `projectionOnSegment`
(`util.cc` is missing from `src/`).  Same clamped-`t` computation as
`distancePointToSegment`, returning the projected point `a + t*(b-a)`
instead of the distance. -/
def projectionOnSegment (p a b : Point) : Point :=
  if a = b then a
  else a.add (Point.smul
    (clamp01 (dot (p.sub a) (b.sub a) / normSq (b.sub a))) (b.sub a))

/-- Capsule data (start point, end point and radius), mirroring the
`Capsule` struct of `util.hh`.  The radius is real because the fitter
computes it as a Euclidean distance. -/
structure Capsule where
  P0 : Point
  P1 : Point
  radius : ℝ

/-- The default `Capsule` constructor of `util.hh` (lines 49-53):
`P0 (0., 0., 0.), P1 (0., 0., 0.), radius (0.)`. -/
def Capsule.default : Capsule :=
  { P0 := ⟨0, 0, 0⟩, P1 := ⟨0, 0, 0⟩, radius := 0 }

/-- Modelled from the spec: the body of `convertCapsuleToSolverParam`
(`util.cc` is missing from `src/`).  Writes the 7 scalars in the
fixed order: first end point coordinates, second end point
coordinates, radius. -/
def convertCapsuleToSolverParam (endPoint1 endPoint2 : Point) (radius : ℚ) : List ℚ :=
  [endPoint1.x, endPoint1.y, endPoint1.z,
   endPoint2.x, endPoint2.y, endPoint2.z, radius]

/-- Modelled from the spec: the body of `convertSolverParamToCapsule`
(`util.cc` is missing from `src/`).  Reads the two end points and the
radius back from the 7-scalar parameter vector, the exact inverse of
`convertCapsuleToSolverParam`. -/
def convertSolverParamToCapsule (src : List ℚ) : Point × Point × ℚ :=
  (⟨src.getD 0 0, src.getD 1 0, src.getD 2 0⟩,
   ⟨src.getD 3 0, src.getD 4 0, src.getD 5 0⟩,
   src.getD 6 0)

/-- Modelled from the spec: the scanning loop of
`extremePointsAlongDirection` (`util.cc` is missing from `src/`).
Carries the current least/most projected indices and projection
values; an entry replaces the current extremum only on a strict
comparison, so ties keep the first occurrence in sequence order. -/
def extremeLoop (dir : Point) : List Point → Nat → Nat × ℚ → Nat × ℚ → Nat × Nat
  | [], _, mn, mx => (mn.1, mx.1)
  | p :: rest, i, mn, mx =>
    extremeLoop dir rest (i + 1)
      (if dot p dir < mn.2 then (i, dot p dir) else mn)
      (if mx.2 < dot p dir then (i, dot p dir) else mx)

/-- Modelled from the spec: the body of `extremePointsAlongDirection`
(`util.cc` is missing from `src/`).  Scans the point set once and
returns the indices of the points with minimum and maximum scalar
projection `dot(point, dir)`; the precondition is a non-empty point
set, the empty-list branch is an arbitrary total-function default. -/
def extremePointsAlongDirection (dir : Point) (points : List Point) : Nat × Nat :=
  match points with
  | [] => (0, 0)
  | p :: rest => extremeLoop dir rest 1 (0, dot p dir) (0, dot p dir)

/-- A 3x3 real matrix with rational entries, row major. -/
structure Mat3 where
  m00 : ℚ
  m01 : ℚ
  m02 : ℚ
  m10 : ℚ
  m11 : ℚ
  m12 : ℚ
  m20 : ℚ
  m21 : ℚ
  m22 : ℚ
deriving DecidableEq, Repr

/-- Entrywise sum of two 3x3 matrices. -/
def Mat3.add (A B : Mat3) : Mat3 :=
  ⟨A.m00 + B.m00, A.m01 + B.m01, A.m02 + B.m02,
   A.m10 + B.m10, A.m11 + B.m11, A.m12 + B.m12,
   A.m20 + B.m20, A.m21 + B.m21, A.m22 + B.m22⟩

/-- Scalar multiple of a 3x3 matrix. -/
def Mat3.smul (t : ℚ) (A : Mat3) : Mat3 :=
  ⟨t * A.m00, t * A.m01, t * A.m02,
   t * A.m10, t * A.m11, t * A.m12,
   t * A.m20, t * A.m21, t * A.m22⟩

/-- The zero 3x3 matrix. -/
def Mat3.zero : Mat3 :=
  ⟨0, 0, 0, 0, 0, 0, 0, 0, 0⟩

/-- Outer product `u vᵀ` of two 3-vectors. -/
def outer (u v : Point) : Mat3 :=
  ⟨u.x * v.x, u.x * v.y, u.x * v.z,
   u.y * v.x, u.y * v.y, u.y * v.z,
   u.z * v.x, u.z * v.y, u.z * v.z⟩

/-- Sum of a list of points, accumulated left to right. -/
def sumPoints (points : List Point) : Point :=
  points.foldl Point.add ⟨0, 0, 0⟩

/-- Arithmetic mean of a list of points. -/
def meanPoint (points : List Point) : Point :=
  Point.smul (1 / (points.length : ℚ)) (sumPoints points)

/-- Modelled from the spec: the body of `covarianceMatrix` (`util.cc`
is missing from `src/`).  Computes the mean of all points, then
accumulates `C = (1/N) Σ (pᵢ-mean)(pᵢ-mean)ᵀ` in one pass; the
precondition is a non-empty point set. -/
def covarianceMatrix (points : List Point) : Mat3 :=
  let mean := meanPoint points
  Mat3.smul (1 / (points.length : ℚ))
    (points.foldl (fun acc p => acc.add (outer (p.sub mean) (p.sub mean))) Mat3.zero)

/-- The exact maximum of the squared distances from the points to
segment `[a,b]` (zero on an empty list; all squared distances are
nonnegative, so the zero seed of the fold is neutral). -/
def maxDistSq (points : List Point) (a b : Point) : ℚ :=
  points.foldl (fun acc p => max acc (distSqPointToSegment p a b)) 0

/-- Modelled from the spec: the body of `capsuleFromPoints` (`util.cc`
is missing from `src/`).  The principal direction is produced by the
external 3x3 eigen-decomposition collaborator, declared out of scope
by the spec, so it is taken here as the explicit argument `dir`; the
segment end points are the extreme points of the cloud along `dir`,
and the radius is the maximum over all points of
`distancePointToSegment(p, P0, P1)`, represented as the real square
root of the exact rational maximum of squared distances. -/
noncomputable def capsuleFromPoints (dir : Point) (points : List Point) : Capsule :=
  let im := extremePointsAlongDirection dir points
  let P0 := points.getD im.1 ⟨0, 0, 0⟩
  let P1 := points.getD im.2 ⟨0, 0, 0⟩
  { P0 := P0, P1 := P1, radius := Real.sqrt (maxDistSq points P0 P1) }

/-- Midpoint of the segment `[a,b]`. -/
def Point.midpoint (a b : Point) : Point :=
  Point.smul (1 / 2) (a.add b)

/-- Modelled from the spec: the body of
`DistanceCapsulePoint::impl_compute` (`distance-capsule-point.cc` is
missing from `src/`; `volume.hh` documents the sign convention).
Decodes the 7-scalar argument and returns the signed distance
`distancePointToSegment(q, P0, P1) - r` from the fixed reference
point `q` to the capsule surface. -/
noncomputable def distanceCapsulePointCompute (q : Point) (argument : List ℚ) : ℝ :=
  let c := convertSolverParamToCapsule argument
  distancePointToSegment q c.1 c.2.1 - (c.2.2 : ℝ)

/-- Modelled from the spec: the body of `Volume::impl_compute`
(`volume.cc` is missing from `src/`).  Decodes the 7-scalar argument
and returns the capsule volume `π r² L + (4/3) π r³` with
`L = |P1 - P0|`. -/
noncomputable def volumeCompute (argument : List ℚ) : ℝ :=
  let c := convertSolverParamToCapsule argument
  Real.pi * ((c.2.2 : ℝ)) ^ 2 * Real.sqrt (normSq (c.2.1.sub c.1))
    + (4 / 3) * Real.pi * ((c.2.2 : ℝ)) ^ 3

/-- Coordinate of a point by index: 0 ↦ x, 1 ↦ y, otherwise z. -/
def Point.coordN (p : Point) (n : Nat) : ℚ :=
  if n = 0 then p.x else if n = 1 then p.y else p.z

/-- Modelled from the spec: the body of `Volume::impl_gradient`
(`volume.cc` is missing from `src/`).  Analytic derivative of the
volume with respect to the 7 parameters, flowing through
`L = |P1 - P0|` for the end-point coordinates, with the spec's
epsilon-guarded branch: when `L` is numerically zero (here: exactly
zero, `normSq (P1 - P0) = 0`) the six end-point components are zero
instead of the singular `±(P1-P0)ᵢ/L` quotient; the radius component
is `2π r L + 4π r²`. -/
noncomputable def volumeGradient (argument : List ℚ) (i : Fin 7) : ℝ :=
  let c := convertSolverParamToCapsule argument
  let d := c.2.1.sub c.1
  let L := Real.sqrt (normSq d)
  let r : ℝ := (c.2.2 : ℝ)
  if i.val < 3 then
    (if normSq d = 0 then 0 else Real.pi * r ^ 2 * (-((d.coordN i.val : ℝ)) / L))
  else if i.val < 6 then
    (if normSq d = 0 then 0 else Real.pi * r ^ 2 * ((d.coordN (i.val - 3) : ℝ) / L))
  else 2 * Real.pi * r * L + 4 * Real.pi * r ^ 2

/-- The seed of a running-maximum fold is a lower bound of the result. -/
theorem le_foldl_max (f : Point → ℚ) :
    ∀ (l : List Point) (b : ℚ), b ≤ l.foldl (fun acc p => max acc (f p)) b
  | [], b => le_refl b
  | p :: t, b => le_trans (le_max_left b (f p)) (le_foldl_max f t (max b (f p)))

/-- Every list member value is bounded by the running-maximum fold. -/
theorem mem_le_foldl_max (f : Point → ℚ) (x : Point) :
    ∀ (l : List Point) (b : ℚ), x ∈ l → f x ≤ l.foldl (fun acc p => max acc (f p)) b := by
  intro l
  induction l with
  | nil => intro b h; cases h
  | cons p t ih =>
    intro b h
    rw [List.foldl_cons]
    rcases List.mem_cons.mp h with h1 | h2
    · rw [h1]; exact le_trans (le_max_right b (f p)) (le_foldl_max f t _)
    · exact ih _ h2

/-- Claim C1: every input point of `capsuleFromPoints` lies within the
returned radius of the returned segment, for every principal
direction the external eigen-decomposition may produce:
`distancePointToSegment p P0 P1 ≤ radius + ε` for every `ε ≥ 0`. -/
theorem capsuleFromPoints_contains (dir : Point) (points : List Point) (p : Point)
    (hp : p ∈ points) (eps : ℝ) (heps : 0 ≤ eps) :
    distancePointToSegment p (capsuleFromPoints dir points).P0
        (capsuleFromPoints dir points).P1 ≤
      (capsuleFromPoints dir points).radius + eps := by
  have hle : distSqPointToSegment p (capsuleFromPoints dir points).P0
      (capsuleFromPoints dir points).P1 ≤
      maxDistSq points (capsuleFromPoints dir points).P0 (capsuleFromPoints dir points).P1 :=
    mem_le_foldl_max
      (fun q => distSqPointToSegment q (capsuleFromPoints dir points).P0
        (capsuleFromPoints dir points).P1) p points 0 hp
  have hrad : (capsuleFromPoints dir points).radius =
      Real.sqrt (maxDistSq points (capsuleFromPoints dir points).P0
        (capsuleFromPoints dir points).P1) := rfl
  have hsqrt : distancePointToSegment p (capsuleFromPoints dir points).P0
      (capsuleFromPoints dir points).P1 ≤ (capsuleFromPoints dir points).radius := by
    rw [hrad, distancePointToSegment]
    exact Real.sqrt_le_sqrt (by exact_mod_cast hle)
  linarith

/-- Witness for C1 at `dir = (0,0,1)`, `points = [(0,0,0),(0,0,3)]`,
`p = (0,0,0)`, `ε = 1`. -/
theorem capsuleFromPoints_contains_witness :
    (⟨0, 0, 0⟩ : Point) ∈ ([⟨0, 0, 0⟩, ⟨0, 0, 3⟩] : List Point) ∧ (0 : ℝ) ≤ 1 ∧
    distancePointToSegment ⟨0, 0, 0⟩
        (capsuleFromPoints ⟨0, 0, 1⟩ [⟨0, 0, 0⟩, ⟨0, 0, 3⟩]).P0
        (capsuleFromPoints ⟨0, 0, 1⟩ [⟨0, 0, 0⟩, ⟨0, 0, 3⟩]).P1 ≤
      (capsuleFromPoints ⟨0, 0, 1⟩ [⟨0, 0, 0⟩, ⟨0, 0, 3⟩]).radius + 1 :=
  ⟨by decide, by norm_num,
    capsuleFromPoints_contains ⟨0, 0, 1⟩ [⟨0, 0, 0⟩, ⟨0, 0, 3⟩] ⟨0, 0, 0⟩
      (by decide) 1 (by norm_num)⟩

/-- The squared norm vanishes exactly on the zero vector. -/
theorem normSq_eq_zero_iff (v : Point) : normSq v = 0 ↔ v = ⟨0, 0, 0⟩ := by
  cases v with
  | mk x y z =>
    unfold normSq dot
    constructor
    · intro h
      have hx : x = 0 := by nlinarith [mul_self_nonneg x, mul_self_nonneg y, mul_self_nonneg z]
      have hy : y = 0 := by nlinarith [mul_self_nonneg x, mul_self_nonneg y, mul_self_nonneg z]
      have hz : z = 0 := by nlinarith [mul_self_nonneg x, mul_self_nonneg y, mul_self_nonneg z]
      simp [hx, hy, hz]
    · intro h
      simp only [Point.mk.injEq] at h
      obtain ⟨rfl, rfl, rfl⟩ := h
      norm_num

/-- The componentwise difference vanishes exactly on equal points. -/
theorem sub_eq_zero_iff_point (a b : Point) : a.sub b = ⟨0, 0, 0⟩ ↔ a = b := by
  cases a; cases b
  simp [Point.sub, Point.mk.injEq, sub_eq_zero]

/-- The midpoint of `[a,b]` lies on the segment: its squared distance
to the segment is zero (for `a ≠ b` the clamped projection parameter
is `1/2` and the projected point is the midpoint itself; for `a = b`
the midpoint coincides with `a`). -/
theorem distSq_midpoint_zero (a b : Point) :
    distSqPointToSegment (Point.midpoint a b) a b = 0 := by
  by_cases h : a = b
  · subst h
    unfold distSqPointToSegment
    rw [if_pos rfl]
    have hmid : Point.midpoint a a = a := by
      cases a
      simp only [Point.midpoint, Point.add, Point.smul, Point.mk.injEq]
      refine ⟨by ring, by ring, by ring⟩
    rw [hmid]
    cases a
    simp [Point.sub, normSq, dot]
  · unfold distSqPointToSegment
    rw [if_neg h]
    have hn : normSq (b.sub a) ≠ 0 := by
      intro h0
      exact h ((sub_eq_zero_iff_point b a).mp ((normSq_eq_zero_iff (b.sub a)).mp h0)).symm
    have h2 : dot ((Point.midpoint a b).sub a) (b.sub a) = normSq (b.sub a) / 2 := by
      cases a; cases b
      simp only [Point.midpoint, Point.add, Point.smul, Point.sub, dot, normSq]
      ring
    have ht : clamp01 (dot ((Point.midpoint a b).sub a) (b.sub a) / normSq (b.sub a)) =
        1 / 2 := by
      rw [h2]
      have h3 : normSq (b.sub a) / 2 / normSq (b.sub a) = 1 / 2 := by
        field_simp
        ring
      rw [h3]
      unfold clamp01
      norm_num
    rw [ht]
    have hproj : a.add (Point.smul (1 / 2) (b.sub a)) = Point.midpoint a b := by
      cases a; cases b
      simp only [Point.midpoint, Point.add, Point.smul, Point.sub, Point.mk.injEq]
      refine ⟨by ring, by ring, by ring⟩
    rw [hproj]
    have hz : (Point.midpoint a b).sub (Point.midpoint a b) = ⟨0, 0, 0⟩ := by
      cases Point.midpoint a b
      simp [Point.sub]
    rw [hz]
    simp [normSq, dot]

/-- Claim C3: `DistanceCapsulePoint` computes the signed distance
`distancePointToSegment(q, P0, P1) - r` on the decoded parameter
vector; it is negative when `q` is the axis midpoint and `r > 0`, and
positive when `q` lies outside the capsule (distance to the axis
greater than `r`). -/
theorem distanceCapsulePoint_signed (q : Point) (v : List ℚ) :
    distanceCapsulePointCompute q v =
      distancePointToSegment q (convertSolverParamToCapsule v).1
        (convertSolverParamToCapsule v).2.1 - ((convertSolverParamToCapsule v).2.2 : ℝ) ∧
    (q = Point.midpoint (convertSolverParamToCapsule v).1
        (convertSolverParamToCapsule v).2.1 →
      0 < (convertSolverParamToCapsule v).2.2 → distanceCapsulePointCompute q v < 0) ∧
    (((convertSolverParamToCapsule v).2.2 : ℝ) <
        distancePointToSegment q (convertSolverParamToCapsule v).1
          (convertSolverParamToCapsule v).2.1 →
      0 < distanceCapsulePointCompute q v) := by
  have hdef : distanceCapsulePointCompute q v =
      distancePointToSegment q (convertSolverParamToCapsule v).1
        (convertSolverParamToCapsule v).2.1 - ((convertSolverParamToCapsule v).2.2 : ℝ) := rfl
  refine ⟨hdef, ?_, ?_⟩
  · intro hq hr
    have h0 : distancePointToSegment q (convertSolverParamToCapsule v).1
        (convertSolverParamToCapsule v).2.1 = 0 := by
      rw [hq, distancePointToSegment, distSq_midpoint_zero]
      simp
    have hr' : (0 : ℝ) < ((convertSolverParamToCapsule v).2.2 : ℝ) := by exact_mod_cast hr
    rw [hdef, h0]
    linarith
  · intro hout
    rw [hdef]
    linarith

/-- Witness for C3 at `v = [0,0,0,0,0,2,1]` (capsule from `(0,0,0)`
to `(0,0,2)` with radius `1`) and `q = (0,0,1)`, the axis midpoint. -/
theorem distanceCapsulePoint_signed_witness :
    (⟨0, 0, 1⟩ : Point) = Point.midpoint
        (convertSolverParamToCapsule [0, 0, 0, 0, 0, 2, 1]).1
        (convertSolverParamToCapsule [0, 0, 0, 0, 0, 2, 1]).2.1 ∧
    0 < (convertSolverParamToCapsule [0, 0, 0, 0, 0, 2, 1]).2.2 ∧
    distanceCapsulePointCompute ⟨0, 0, 1⟩ [0, 0, 0, 0, 0, 2, 1] < 0 :=
  ⟨by norm_num [Point.midpoint, convertSolverParamToCapsule, Point.add, Point.smul,
      Point.mk.injEq],
    by norm_num [convertSolverParamToCapsule],
    (distanceCapsulePoint_signed ⟨0, 0, 1⟩ [0, 0, 0, 0, 0, 2, 1]).2.1
      (by norm_num [Point.midpoint, convertSolverParamToCapsule, Point.add, Point.smul,
        Point.mk.injEq])
      (by norm_num [convertSolverParamToCapsule])⟩

/-- Claim C10: a default-constructed `Capsule` has `P0 = P1 = (0,0,0)`
and `radius = 0`: a well-formed degenerate point capsule with
coincident endpoints already satisfying the invariant `radius ≥ 0`. -/
theorem capsuleDefault_degenerate_wellFormed :
    Capsule.default.P0 = ⟨0, 0, 0⟩ ∧ Capsule.default.P1 = ⟨0, 0, 0⟩ ∧
    Capsule.default.P0 = Capsule.default.P1 ∧
    Capsule.default.radius = 0 ∧ 0 ≤ Capsule.default.radius :=
  ⟨rfl, rfl, rfl, rfl, le_refl 0⟩

/-- Claim C6: `distancePointToSegment p a a = |p - a|` (the degenerate
zero-length segment is treated as a point), and for `a ≠ b` the result
is the distance from `p` to `a + t*(b-a)` with
`t = dot(p-a, b-a) / |b-a|^2` clamped to `[0,1]`. -/
theorem distancePointToSegment_degenerate_and_clamped (p a b : Point) (h : a ≠ b) :
    distancePointToSegment p a a = Point.norm (p.sub a) ∧
    distancePointToSegment p a b =
      Point.norm (p.sub (a.add (Point.smul
        (clamp01 (dot (p.sub a) (b.sub a) / normSq (b.sub a))) (b.sub a)))) := by
  constructor
  · unfold distancePointToSegment distSqPointToSegment Point.norm
    rw [if_pos rfl]
  · unfold distancePointToSegment distSqPointToSegment Point.norm
    rw [if_neg h]

/-- Witness for C6 at `p = (2,5,0)`, `a = (0,0,0)`, `b = (1,0,0)`. -/
theorem distancePointToSegment_degenerate_and_clamped_witness :
    (⟨0, 0, 0⟩ : Point) ≠ ⟨1, 0, 0⟩ ∧
    (distancePointToSegment ⟨2, 5, 0⟩ ⟨0, 0, 0⟩ ⟨0, 0, 0⟩ =
        Point.norm ((⟨2, 5, 0⟩ : Point).sub ⟨0, 0, 0⟩) ∧
      distancePointToSegment ⟨2, 5, 0⟩ ⟨0, 0, 0⟩ ⟨1, 0, 0⟩ =
        Point.norm ((⟨2, 5, 0⟩ : Point).sub ((⟨0, 0, 0⟩ : Point).add (Point.smul
          (clamp01 (dot ((⟨2, 5, 0⟩ : Point).sub ⟨0, 0, 0⟩)
              ((⟨1, 0, 0⟩ : Point).sub ⟨0, 0, 0⟩) /
            normSq ((⟨1, 0, 0⟩ : Point).sub ⟨0, 0, 0⟩)))
          ((⟨1, 0, 0⟩ : Point).sub ⟨0, 0, 0⟩))))) :=
  ⟨by decide, distancePointToSegment_degenerate_and_clamped ⟨2, 5, 0⟩ ⟨0, 0, 0⟩ ⟨1, 0, 0⟩
    (by decide)⟩

/-- Claim C7: `distancePointToSegment p a b` is the Euclidean norm of
`p - projectionOnSegment p a b`: the two functions share the same
clamped-`t` computation, one returning the distance and the other the
projected point. -/
theorem distancePointToSegment_eq_norm_sub_projection (p a b : Point) :
    distancePointToSegment p a b = Point.norm (p.sub (projectionOnSegment p a b)) := by
  by_cases h : a = b <;>
    simp [distancePointToSegment, distSqPointToSegment, projectionOnSegment, Point.norm, h]

/-- Claim C2: the capsule/solver-parameter codec is an exact
round-trip in both directions: decoding the encoding of any capsule
returns the capsule, and encoding the decoding of any 7-scalar vector
returns the vector. -/
theorem codec_round_trip (endPoint1 endPoint2 : Point) (radius : ℚ)
    (v : List ℚ) (hv : v.length = 7) :
    convertSolverParamToCapsule (convertCapsuleToSolverParam endPoint1 endPoint2 radius) =
      (endPoint1, endPoint2, radius) ∧
    convertCapsuleToSolverParam (convertSolverParamToCapsule v).1
      (convertSolverParamToCapsule v).2.1 (convertSolverParamToCapsule v).2.2 = v := by
  constructor
  · rfl
  · rcases v with _ | ⟨a, _ | ⟨b, _ | ⟨c, _ | ⟨d, _ | ⟨e, _ | ⟨f, _ | ⟨g, _ | ⟨h, t⟩⟩⟩⟩⟩⟩⟩⟩ <;>
      simp_all [convertCapsuleToSolverParam, convertSolverParamToCapsule]

/-- Witness for C2 at `endPoint1 = (1,2,3)`, `endPoint2 = (4,5,6)`,
`radius = 7`, `v = [1,2,3,4,5,6,7]`. -/
theorem codec_round_trip_witness :
    ([1, 2, 3, 4, 5, 6, 7] : List ℚ).length = 7 ∧
    (convertSolverParamToCapsule (convertCapsuleToSolverParam ⟨1, 2, 3⟩ ⟨4, 5, 6⟩ 7) =
        (⟨1, 2, 3⟩, ⟨4, 5, 6⟩, 7) ∧
      convertCapsuleToSolverParam
        (convertSolverParamToCapsule [1, 2, 3, 4, 5, 6, 7]).1
        (convertSolverParamToCapsule [1, 2, 3, 4, 5, 6, 7]).2.1
        (convertSolverParamToCapsule [1, 2, 3, 4, 5, 6, 7]).2.2 = [1, 2, 3, 4, 5, 6, 7]) :=
  ⟨rfl, codec_round_trip ⟨1, 2, 3⟩ ⟨4, 5, 6⟩ 7 [1, 2, 3, 4, 5, 6, 7] rfl⟩

/-- Claim C4: `Volume` computes `π r² L + (4/3) π r³` with
`L = |P1 - P0|`; at `P0 = (0,0,0)`, `P1 = (0,0,5)`, `r = 2` the value
is exactly `20π + 32π/3`. -/
theorem volume_formula (v : List ℚ) :
    volumeCompute v =
      Real.pi * ((convertSolverParamToCapsule v).2.2 : ℝ) ^ 2 *
          Real.sqrt (normSq ((convertSolverParamToCapsule v).2.1.sub
            (convertSolverParamToCapsule v).1)) +
        (4 / 3) * Real.pi * ((convertSolverParamToCapsule v).2.2 : ℝ) ^ 3 ∧
    volumeCompute [0, 0, 0, 0, 0, 5, 2] = 20 * Real.pi + 32 * Real.pi / 3 := by
  constructor
  · rfl
  · unfold volumeCompute
    norm_num [convertSolverParamToCapsule, Point.sub, normSq, dot]
    rw [show ((25 : ℝ)) = 5 ^ 2 by norm_num, Real.sqrt_sq (by norm_num : (0 : ℝ) ≤ 5)]
    ring

/-- The difference of a point with itself is the zero vector. -/
theorem point_sub_self (p : Point) : p.sub p = ⟨0, 0, 0⟩ :=
  (sub_eq_zero_iff_point p p).mpr rfl

/-- Claim C5: when the decoded end points coincide (`P1 = P0`, segment
length numerically zero), the six end-point components of `Volume`'s
gradient are zero: the singular `±(P1-P0)ᵢ/L` quotient is guarded by
the explicit degenerate branch. -/
theorem volumeGradient_zero_on_degenerate_axis (v : List ℚ)
    (h : (convertSolverParamToCapsule v).2.1 = (convertSolverParamToCapsule v).1)
    (i : Fin 7) (hi : i.val < 6) :
    volumeGradient v i = 0 := by
  have hd : normSq ((convertSolverParamToCapsule v).2.1.sub
      (convertSolverParamToCapsule v).1) = 0 := by
    rw [h, point_sub_self]
    simp [normSq, dot]
  unfold volumeGradient
  by_cases h3 : i.val < 3
  · simp [h3, hd]
  · simp [h3, hi, hd]

/-- Witness for C5 at `v = [1,2,3,1,2,3,4]` (both end points
`(1,2,3)`, radius `4`) and the first gradient component. -/
theorem volumeGradient_zero_on_degenerate_axis_witness :
    (convertSolverParamToCapsule [1, 2, 3, 1, 2, 3, 4]).2.1 =
      (convertSolverParamToCapsule [1, 2, 3, 1, 2, 3, 4]).1 ∧
    ((0 : Fin 7)).val < 6 ∧
    volumeGradient [1, 2, 3, 1, 2, 3, 4] 0 = 0 :=
  ⟨by decide, by decide,
    volumeGradient_zero_on_degenerate_axis [1, 2, 3, 1, 2, 3, 4] (by decide) 0 (by decide)⟩

/-- Adding the zero matrix on the right is the identity. -/
theorem Mat3.add_zero (A : Mat3) : A.add Mat3.zero = A := by
  cases A
  simp [Mat3.add, Mat3.zero]

/-- Adding the zero matrix on the left is the identity. -/
theorem Mat3.zero_add (A : Mat3) : Mat3.zero.add A = A := by
  cases A
  simp [Mat3.add, Mat3.zero]

/-- Matrix addition is associative. -/
theorem Mat3.add_assoc (A B C : Mat3) : (A.add B).add C = A.add (B.add C) := by
  cases A; cases B; cases C
  simp only [Mat3.add, Mat3.mk.injEq]
  refine ⟨by ring, by ring, by ring, by ring, by ring, by ring, by ring, by ring, by ring⟩

/-- A left fold accumulating matrix summands equals the seed plus the
right-fold sum of the mapped list. -/
theorem foldl_add_eq (f : Point → Mat3) :
    ∀ (l : List Point) (acc : Mat3),
      l.foldl (fun a p => a.add (f p)) acc = acc.add ((l.map f).foldr Mat3.add Mat3.zero)
  | [], acc => (Mat3.add_zero acc).symm
  | p :: t, acc => by
    rw [List.foldl_cons, foldl_add_eq f t (acc.add (f p)), List.map_cons, List.foldr_cons,
      Mat3.add_assoc]

/-- Claim C9: `covarianceMatrix points` is
`(1/N) Σ (pᵢ-mean)(pᵢ-mean)ᵀ` where `mean` is the arithmetic mean of
the points; for a single point the result is the zero matrix. -/
theorem covarianceMatrix_formula (points : List Point) (q : Point) :
    covarianceMatrix points =
      Mat3.smul (1 / (points.length : ℚ))
        ((points.map (fun p =>
          outer (p.sub (meanPoint points)) (p.sub (meanPoint points)))).foldr
            Mat3.add Mat3.zero) ∧
    covarianceMatrix [q] = Mat3.zero := by
  constructor
  · show Mat3.smul (1 / (points.length : ℚ))
        (points.foldl (fun acc p =>
          acc.add (outer (p.sub (meanPoint points)) (p.sub (meanPoint points)))) Mat3.zero) = _
    rw [foldl_add_eq (fun p => outer (p.sub (meanPoint points)) (p.sub (meanPoint points)))
      points Mat3.zero, Mat3.zero_add]
  · cases q with
    | mk x y z =>
      simp only [covarianceMatrix, meanPoint, sumPoints, List.foldl_cons, List.foldl_nil,
        List.length_cons, List.length_nil, Point.smul, Point.add, Point.sub, outer,
        Mat3.smul, Mat3.add, Mat3.zero, Mat3.mk.injEq, Nat.cast_one]
      norm_num

/-- The origin, used as the out-of-range default for list indexing. -/
def pzero : Point := ⟨0, 0, 0⟩

/-- Invariant of the `extremeLoop` scan: if the accumulators hold the
first-occurrence minimum and maximum projections of the first `i`
points of `pts`, and `rest` is the remaining suffix of `pts`, then the
loop result indexes a first-occurrence minimum and maximum projection
of all of `pts`. -/
theorem extremeLoop_spec (dir : Point) :
    ∀ (rest pts : List Point) (i imin imax : Nat) (vmin vmax : ℚ),
      i + rest.length = pts.length →
      (∀ k, k < rest.length → rest.getD k pzero = pts.getD (i + k) pzero) →
      imin < i → imax < i →
      vmin = dot (pts.getD imin pzero) dir →
      vmax = dot (pts.getD imax pzero) dir →
      (∀ j, j < i → vmin ≤ dot (pts.getD j pzero) dir) →
      (∀ j, j < i → dot (pts.getD j pzero) dir ≤ vmax) →
      (∀ j, j < imin → vmin < dot (pts.getD j pzero) dir) →
      (∀ j, j < imax → dot (pts.getD j pzero) dir < vmax) →
      (extremeLoop dir rest i (imin, vmin) (imax, vmax)).1 < pts.length ∧
      (extremeLoop dir rest i (imin, vmin) (imax, vmax)).2 < pts.length ∧
      (∀ j, j < pts.length →
        dot (pts.getD (extremeLoop dir rest i (imin, vmin) (imax, vmax)).1 pzero) dir ≤
          dot (pts.getD j pzero) dir) ∧
      (∀ j, j < pts.length →
        dot (pts.getD j pzero) dir ≤
          dot (pts.getD (extremeLoop dir rest i (imin, vmin) (imax, vmax)).2 pzero) dir) ∧
      (∀ j, j < (extremeLoop dir rest i (imin, vmin) (imax, vmax)).1 →
        dot (pts.getD (extremeLoop dir rest i (imin, vmin) (imax, vmax)).1 pzero) dir <
          dot (pts.getD j pzero) dir) ∧
      (∀ j, j < (extremeLoop dir rest i (imin, vmin) (imax, vmax)).2 →
        dot (pts.getD j pzero) dir <
          dot (pts.getD (extremeLoop dir rest i (imin, vmin) (imax, vmax)).2 pzero) dir) := by
  intro rest
  induction rest with
  | nil =>
    intro pts i imin imax vmin vmax hlen hrest himin himax hvmin hvmax hminle hmaxge hminf hmaxf
    simp only [extremeLoop]
    have hi : i = pts.length := by simpa using hlen
    refine ⟨by omega, by omega, ?_, ?_, ?_, ?_⟩
    · intro j hj
      have := hminle j (by omega)
      rwa [hvmin] at this
    · intro j hj
      have := hmaxge j (by omega)
      rwa [hvmax] at this
    · intro j hj
      have := hminf j hj
      rwa [hvmin] at this
    · intro j hj
      have := hmaxf j hj
      rwa [hvmax] at this
  | cons p rest ih =>
    intro pts i imin imax vmin vmax hlen hrest himin himax hvmin hvmax hminle hmaxge hminf hmaxf
    have hp : p = pts.getD i pzero := by
      have := hrest 0 (by simp)
      simpa using this
    have hrest' : ∀ k, k < rest.length → rest.getD k pzero = pts.getD (i + 1 + k) pzero := by
      intro k hk
      have h1 := hrest (k + 1) (by simp only [List.length_cons]; omega)
      rw [List.getD_cons_succ] at h1
      rw [h1]
      have h2 : i + (k + 1) = i + 1 + k := by omega
      rw [h2]
    have hlen' : i + 1 + rest.length = pts.length := by
      simp only [List.length_cons] at hlen
      omega
    simp only [extremeLoop]
    by_cases hmn : dot p dir < vmin <;> by_cases hmx : vmax < dot p dir <;>
      simp only [hmn, hmx, if_pos, if_neg, if_true, if_false]
    · exact ih pts (i + 1) i i (dot p dir) (dot p dir) hlen' hrest' (by omega) (by omega)
        (by rw [hp]) (by rw [hp])
        (by
          intro j hj
          rcases Nat.lt_succ_iff_lt_or_eq.mp hj with hj' | rfl
          · exact le_of_lt (lt_of_lt_of_le hmn (hminle j hj'))
          · rw [hp])
        (by
          intro j hj
          rcases Nat.lt_succ_iff_lt_or_eq.mp hj with hj' | rfl
          · exact le_of_lt (lt_of_le_of_lt (hmaxge j hj') hmx)
          · rw [hp])
        (by
          intro j hj
          exact lt_of_lt_of_le hmn (hminle j hj))
        (by
          intro j hj
          exact lt_of_le_of_lt (hmaxge j hj) hmx)
    · exact ih pts (i + 1) i imax (dot p dir) vmax hlen' hrest' (by omega) (by omega)
        (by rw [hp]) hvmax
        (by
          intro j hj
          rcases Nat.lt_succ_iff_lt_or_eq.mp hj with hj' | rfl
          · exact le_of_lt (lt_of_lt_of_le hmn (hminle j hj'))
          · rw [hp])
        (by
          intro j hj
          rcases Nat.lt_succ_iff_lt_or_eq.mp hj with hj' | rfl
          · exact hmaxge j hj'
          · rw [← hp]; exact not_lt.mp hmx)
        (by
          intro j hj
          exact lt_of_lt_of_le hmn (hminle j hj))
        hmaxf
    · exact ih pts (i + 1) imin i vmin (dot p dir) hlen' hrest' (by omega) (by omega)
        hvmin (by rw [hp])
        (by
          intro j hj
          rcases Nat.lt_succ_iff_lt_or_eq.mp hj with hj' | rfl
          · exact hminle j hj'
          · rw [← hp]; exact not_lt.mp hmn)
        (by
          intro j hj
          rcases Nat.lt_succ_iff_lt_or_eq.mp hj with hj' | rfl
          · exact le_of_lt (lt_of_le_of_lt (hmaxge j hj') hmx)
          · rw [hp])
        hminf
        (by
          intro j hj
          exact lt_of_le_of_lt (hmaxge j hj) hmx)
    · exact ih pts (i + 1) imin imax vmin vmax hlen' hrest' (by omega) (by omega)
        hvmin hvmax
        (by
          intro j hj
          rcases Nat.lt_succ_iff_lt_or_eq.mp hj with hj' | rfl
          · exact hminle j hj'
          · rw [← hp]; exact not_lt.mp hmn)
        (by
          intro j hj
          rcases Nat.lt_succ_iff_lt_or_eq.mp hj with hj' | rfl
          · exact hmaxge j hj'
          · rw [← hp]; exact not_lt.mp hmx)
        hminf hmaxf

/-- Claim C8: on a non-empty point sequence,
`extremePointsAlongDirection dir points` returns in its first
component the index of a point of minimal scalar projection
`dot(point, dir)` and in its second the index of a point of maximal
projection, and on ties each returned index is the first occurrence
in sequence order (every strictly earlier point projects strictly
farther from the respective extremum). -/
theorem extremePointsAlongDirection_spec (dir : Point) (points : List Point)
    (h : points ≠ []) :
    (extremePointsAlongDirection dir points).1 < points.length ∧
    (extremePointsAlongDirection dir points).2 < points.length ∧
    (∀ j, j < points.length →
      dot (points.getD (extremePointsAlongDirection dir points).1 pzero) dir ≤
        dot (points.getD j pzero) dir) ∧
    (∀ j, j < points.length →
      dot (points.getD j pzero) dir ≤
        dot (points.getD (extremePointsAlongDirection dir points).2 pzero) dir) ∧
    (∀ j, j < (extremePointsAlongDirection dir points).1 →
      dot (points.getD (extremePointsAlongDirection dir points).1 pzero) dir <
        dot (points.getD j pzero) dir) ∧
    (∀ j, j < (extremePointsAlongDirection dir points).2 →
      dot (points.getD j pzero) dir <
        dot (points.getD (extremePointsAlongDirection dir points).2 pzero) dir) := by
  cases points with
  | nil => exact absurd rfl h
  | cons p rest =>
    have key := extremeLoop_spec dir rest (p :: rest) 1 0 0 (dot p dir) (dot p dir)
      (by simp only [List.length_cons]; omega)
      (by
        intro k hk
        have h2 : 1 + k = k + 1 := by omega
        rw [h2, List.getD_cons_succ])
      (by omega) (by omega)
      (by simp) (by simp)
      (by
        intro j hj
        have : j = 0 := by omega
        subst this
        simp)
      (by
        intro j hj
        have : j = 0 := by omega
        subst this
        simp)
      (by intro j hj; exact absurd hj (Nat.not_lt_zero j))
      (by intro j hj; exact absurd hj (Nat.not_lt_zero j))
    simpa only [extremePointsAlongDirection] using key

/-- Witness for C8 at `dir = (0,0,1)`,
`points = [(0,0,3),(0,0,1),(0,0,7)]`: the returned minimum index is
in range. -/
theorem extremePointsAlongDirection_spec_witness :
    ([⟨0, 0, 3⟩, ⟨0, 0, 1⟩, ⟨0, 0, 7⟩] : List Point) ≠ [] ∧
    (extremePointsAlongDirection ⟨0, 0, 1⟩ [⟨0, 0, 3⟩, ⟨0, 0, 1⟩, ⟨0, 0, 7⟩]).1 <
      ([⟨0, 0, 3⟩, ⟨0, 0, 1⟩, ⟨0, 0, 7⟩] : List Point).length :=
  ⟨by decide,
    (extremePointsAlongDirection_spec ⟨0, 0, 1⟩ [⟨0, 0, 3⟩, ⟨0, 0, 1⟩, ⟨0, 0, 7⟩]
      (by decide)).1⟩

end RoboptimCapsule
